import Mathlib

/-!
Verification of the Metra metronome core against its specification.

The definitions below are shallow embeddings of the interactive logic in
`src/components/Metronome.jsx` and of the mobile audio unlock utility.
JavaScript numbers are modelled as real numbers where the code does
trigonometry, and as rationals elsewhere; machine state held in React
refs/state is modelled as explicit state records.
-/

namespace Metra

/-! ## GeometryMapper: getPolygonPoints and interpolatePosition -/

/-- A point as pushed by `getPolygonPoints`: `{ x, y, angle }`. -/
structure Pt where
  x : ℝ
  y : ℝ
  angle : ℝ

/-- Default point used to totalise list indexing (never reached in-bounds). -/
def ptZero : Pt := ⟨0, 0, 0⟩

/-- Embedding of `getPolygonPoints(sides, radius, centerX, centerY)`:
for `i` in `0..sides-1`, angle `= -π/2 + (2π·i)/sides`, with
`x = centerX + radius·cos(angle)` and `y = centerY + radius·sin(angle)`. -/
noncomputable def getPolygonPoints (sides : ℕ) (radius centerX centerY : ℝ) : List Pt :=
  (List.range sides).map fun (i : ℕ) =>
    let angle : ℝ := -(Real.pi / 2) + (2 * Real.pi * (i : ℝ)) / (sides : ℝ)
    { x := centerX + radius * Real.cos angle
      y := centerY + radius * Real.sin angle
      angle := angle }

/-- Embedding of `interpolatePosition(points, progress)`: returns `(0,0)` on an
empty list, otherwise linearly interpolates between `points[currentSegment]`
and `points[(currentSegment+1) % n]` where
`currentSegment = floor(progress·n) % n` and the fraction is the fractional
part of `progress·n`. -/
noncomputable def interpolatePosition (points : List Pt) (progress : ℝ) : ℝ × ℝ :=
  if points.length = 0 then (0, 0)
  else
    let totalSegments : ℕ := points.length
    let segmentProgress : ℝ := progress * totalSegments
    let currentSegment : ℕ := (⌊segmentProgress⌋ % (totalSegments : ℤ)).toNat
    let segmentT : ℝ := segmentProgress - ⌊segmentProgress⌋
    let startPoint := points.getD currentSegment ptZero
    let endPoint := points.getD ((currentSegment + 1) % totalSegments) ptZero
    (startPoint.x + (endPoint.x - startPoint.x) * segmentT,
     startPoint.y + (endPoint.y - startPoint.y) * segmentT)

/-- Embedding of the position computation in the `animate` callback, as a
function of the current measure progress: numerator 1 pins the marker at the
center, numerator 2 moves it along the horizontal segment
`x = center - shapeRadius + shapeRadius·2·progress`, and numerator ≥ 3
interpolates along the polygon. -/
noncomputable def animateMarker (numerator : ℕ) (center shapeRadius : ℝ)
    (measureProgress : ℝ) : ℝ × ℝ :=
  if numerator = 1 then (center, center)
  else if numerator = 2 then
    (center - shapeRadius + shapeRadius * 2 * measureProgress, center)
  else interpolatePosition (getPolygonPoints numerator shapeRadius center center) measureProgress

/-! ## Controls: BPM / numerator handlers and their running-session guards -/

/-- Embedding of `handleBpmChange`: `bpm := min(200, max(40, prev + delta))`. -/
def handleBpmChange (prev delta : ℤ) : ℤ := min 200 (max 40 (prev + delta))

/-- Embedding of `handleNumeratorChange`:
`numerator := min(12, max(1, prev + delta))`. -/
def handleNumeratorChange (prev delta : ℤ) : ℤ := min 12 (max 1 (prev + delta))

/-- The slice of component state the tempo/meter controls touch. -/
structure ControlsState where
  isPlaying : Bool
  bpm : ℤ
  numerator : ℤ
  deriving DecidableEq

/-- The BPM arrow buttons: `onClick={() => !isPlaying && handleBpmChange(d)}`
(also `disabled={isPlaying}`). -/
def bpmArrowClick (s : ControlsState) (delta : ℤ) : ControlsState :=
  if s.isPlaying then s else { s with bpm := handleBpmChange s.bpm delta }

/-- The numerator arrow buttons, guarded by `!isPlaying` the same way. -/
def numeratorArrowClick (s : ControlsState) (delta : ℤ) : ControlsState :=
  if s.isPlaying then s else { s with numerator := handleNumeratorChange s.numerator delta }

/-- A drag step delivered through `useScrollControl(handleBpmChange, isPlaying)`:
the pointer handlers return early when `disabled` (which is `isPlaying`), so no
`onChange` fires while playing. -/
def bpmScrollStep (s : ControlsState) (steps : ℤ) : ControlsState :=
  if s.isPlaying then s else { s with bpm := handleBpmChange s.bpm steps }

/-- A drag step through `useScrollControl(handleNumeratorChange, isPlaying)`. -/
def numeratorScrollStep (s : ControlsState) (steps : ℤ) : ControlsState :=
  if s.isPlaying then s else { s with numerator := handleNumeratorChange s.numerator steps }

/-! ## ClickScheduler: triggerBeat, the setup-loop effect, and flash timers -/

/-- The beat-visual slice of component state: `currentBeat`, `isDownbeat`,
`beatActive` (the flash flag). -/
structure BeatVisual where
  currentBeat : ℕ
  isDownbeat : Bool
  beatActive : Bool
  deriving DecidableEq

/-- A click scheduled on a synth: which synth (accent or not), note name,
duration, and the audio time it is scheduled at. -/
structure ClickSound where
  accent : Bool
  note : String
  duration : String
  time : ℚ
  deriving DecidableEq

/-- Everything one `triggerBeat(time)` invocation does: the click it schedules,
the Draw-scheduled visual write (at `drawTime`), the delay of the
`setTimeout` flash clear in milliseconds, and the updated beat counter. -/
structure TickEffects where
  click : ClickSound
  drawTime : ℚ
  visual : BeatVisual
  clearDelayMs : ℚ
  newBeatCount : ℕ
  deriving DecidableEq

/-- Embedding of `triggerBeat`: returns `none` when the synth refs are not yet
populated (the early return), otherwise computes
`beatIndex = beatCount % numerator`, `isFirstBeat = (beatIndex == 0)`, plays
`C2` on the accent synth for the downbeat and `G1` on the ordinary synth
otherwise (both `16n`, at `time`), schedules the visual write at `time` with a
flash clear after `beatDuration * 0.8` ms, and increments the beat counter. -/
def triggerBeat (synthsReady : Bool) (numerator : ℕ) (bpmValue : ℚ)
    (beatCount : ℕ) (time : ℚ) : Option TickEffects :=
  if !synthsReady then none
  else
    let beatIndex := beatCount % numerator
    let isFirstBeat := beatIndex == 0
    let beatDuration := 60 / bpmValue * 1000
    let fadeDuration := beatDuration * 0.8
    some
      { click := if isFirstBeat then ⟨true, "C2", "16n", time⟩ else ⟨false, "G1", "16n", time⟩
        drawTime := time
        visual := ⟨beatIndex, isFirstBeat, true⟩
        clearDelayMs := fadeDuration
        newBeatCount := beatCount + 1 }

/-- The engine state touched by the setup-loop effect: the Tone transport,
the loop, the beat-count ref and the visual beat state. -/
structure EngineState where
  transportRunning : Bool
  transportSeconds : ℚ
  beatCount : ℕ
  loopActive : Bool
  visual : BeatVisual
  deriving DecidableEq

/-- The `isPlaying && audioReady` branch of the setup-loop effect:
`beatCountRef.current = 0`, a fresh loop is started, and the transport starts
(resuming from its current position). -/
def setupLoopStart (s : EngineState) : EngineState :=
  { s with beatCount := 0, loopActive := true, transportRunning := true }

/-- The stop branch of the setup-loop effect: the loop is stopped and
disposed, the transport stops, `Transport.position = 0`,
`beatCountRef.current = 0`, and the beat state is cleared. -/
def setupLoopStop (_ : EngineState) : EngineState :=
  { transportRunning := false
    transportSeconds := 0
    beatCount := 0
    loopActive := false
    visual := ⟨0, false, false⟩ }

/-- Events during a running session: a scheduled loop tick, or the transport
clock advancing between ticks. -/
inductive RunEvent where
  | tick (time : ℚ)
  | advance (dt : ℚ)

/-- One step of a running session: ticks fire `triggerBeat` while the loop and
transport are active; the clock advances only while the transport runs. -/
def engineStep (numerator : ℕ) (bpmValue : ℚ) (s : EngineState) :
    RunEvent → EngineState
  | RunEvent.advance dt =>
      if s.transportRunning then { s with transportSeconds := s.transportSeconds + dt } else s
  | RunEvent.tick t =>
      if s.loopActive && s.transportRunning then
        match triggerBeat true numerator bpmValue s.beatCount t with
        | some e => { s with beatCount := e.newBeatCount, visual := e.visual }
        | none => s
      else s

/-- Flash-timer interleaving events: tick `g`'s Draw-scheduled visual write,
or tick `g`'s delayed `setTimeout` flash clear firing. -/
inductive FlashEvent where
  | tickDraw (g : ℕ)
  | flashClear (g : ℕ)

/-- Code semantics of the visual write and the delayed clear: the write sets
the beat index, downbeat flag and flash; the `setTimeout` callback sets
`beatActive` and `isDownbeat` to `false` unconditionally — it does not record
which tick scheduled it. -/
def applyFlashEvent (numerator : ℕ) (s : BeatVisual) : FlashEvent → BeatVisual
  | FlashEvent.tickDraw g => ⟨g % numerator, g % numerator == 0, true⟩
  | FlashEvent.flashClear _ => { s with beatActive := false, isDownbeat := false }

/-- Run a sequence of flash events from a given beat-visual state. -/
def runFlashEvents (numerator : ℕ) (s : BeatVisual) (events : List FlashEvent) : BeatVisual :=
  events.foldl (applyFlashEvent numerator) s

/-! ## AudioUnlockSequencer: unlockMobileAudio -/

/-- The states an audio context reports. -/
inductive AudioCtxState where
  | suspended
  | running
  | closed
  deriving DecidableEq

/-- `UNLOCK_TIMEOUT` from the unlock utility: 500 ms. -/
def UNLOCK_TIMEOUT : ℚ := 500

/-- Value of `withTimeout(promise, timeoutMs, fallbackValue)` when the wrapped
promise settles after `d` ms: the promise's value if it beats the timeout,
the fallback otherwise. -/
def withTimeoutVal {α : Type} (d : ℚ) (v : α) (timeoutMs : ℚ) (fallbackValue : α) : α :=
  if d ≤ timeoutMs then v else fallbackValue

/-- Settling time of `withTimeout`: the race resolves at the earlier of the
promise's settling time and the timeout. -/
def withTimeoutDur (d timeoutMs : ℚ) : ℚ := min d timeoutMs

/-- Environment for one `unlockMobileAudio` run: how long each internal
promise takes to settle, what the two unlock steps report, and the audio
context states observed before and after the resume attempt. -/
structure UnlockEnv where
  dHtml : ℚ
  vHtml : Bool
  dBuf : ℚ
  vBuf : Bool
  stateAfterSteps : AudioCtxState
  dResume : ℚ
  stateAfterResume : AudioCtxState

/-- Result of an `unlockMobileAudio` run: the boolean it returns and the
total time until it returns, in milliseconds. -/
structure UnlockOutcome where
  success : Bool
  duration : ℚ

/-- Embedding of `unlockMobileAudio(audioContext)`: the two unlock steps run
in parallel, each under `withTimeout(·, UNLOCK_TIMEOUT, false)`; their
`Promise.all` pair is wrapped in `withTimeout(·, UNLOCK_TIMEOUT + 100,
[false, false])`; afterwards, if the context is suspended, `resume()` is
awaited under `withTimeout(·, UNLOCK_TIMEOUT, undefined)`; the returned value
is `htmlAudioResult || bufferResult || (state === 'running')`. -/
def unlockMobileAudio (e : UnlockEnv) : UnlockOutcome :=
  let dHtmlStep := withTimeoutDur e.dHtml UNLOCK_TIMEOUT
  let vHtmlStep := withTimeoutVal e.dHtml e.vHtml UNLOCK_TIMEOUT false
  let dBufStep := withTimeoutDur e.dBuf UNLOCK_TIMEOUT
  let vBufStep := withTimeoutVal e.dBuf e.vBuf UNLOCK_TIMEOUT false
  let dPair := max dHtmlStep dBufStep
  let htmlAudioResult := withTimeoutVal dPair vHtmlStep (UNLOCK_TIMEOUT + 100) false
  let bufferResult := withTimeoutVal dPair vBufStep (UNLOCK_TIMEOUT + 100) false
  let dPhase1 := withTimeoutDur dPair (UNLOCK_TIMEOUT + 100)
  let dPhase2 :=
    if e.stateAfterSteps = AudioCtxState.suspended then withTimeoutDur e.dResume UNLOCK_TIMEOUT
    else 0
  let finalState :=
    if e.stateAfterSteps = AudioCtxState.suspended then
      (if e.dResume ≤ UNLOCK_TIMEOUT then e.stateAfterResume else e.stateAfterSteps)
    else e.stateAfterSteps
  { success := htmlAudioResult || bufferResult || decide (finalState = AudioCtxState.running)
    duration := dPhase1 + dPhase2 }

/-! ## Helper lemmas about the polygon vertex list -/

theorem getPolygonPoints_length (n : ℕ) (r cx cy : ℝ) :
    (getPolygonPoints n r cx cy).length = n := by
  simp only [getPolygonPoints, List.length_map, List.length_range]

theorem getPolygonPoints_getD (n : ℕ) (r cx cy : ℝ) (i : ℕ) (hi : i < n) :
    (getPolygonPoints n r cx cy).getD i ptZero =
      { x := cx + r * Real.cos (-(Real.pi / 2) + (2 * Real.pi * i) / n)
        y := cy + r * Real.sin (-(Real.pi / 2) + (2 * Real.pi * i) / n)
        angle := -(Real.pi / 2) + (2 * Real.pi * i) / n } := by
  have hlen : i < (getPolygonPoints n r cx cy).length := by
    rw [getPolygonPoints_length]; exact hi
  rw [List.getD_eq_getElem _ _ hlen]
  simp only [getPolygonPoints, List.getElem_map, List.getElem_range]

/-! ## Theorems for the easy claims -/

/-- C10: `interpolatePosition` on an empty vertex list returns `(0, 0)` for
every progress value, instead of indexing out of bounds. -/
theorem interpolatePosition_empty (progress : ℝ) :
    interpolatePosition [] progress = (0, 0) := by
  simp [interpolatePosition]

/-- C9: in the `animate` position computation, numerator 1 yields the fixed
center point for every measure progress, and numerator 2 yields the point
`(center - radius + 2·radius·p, center)` — a single left-to-right traversal of
the horizontal segment of length `2·radius` centered on the center point. -/
theorem animateMarker_degenerate (center radius p : ℝ) :
    animateMarker 1 center radius p = (center, center) ∧
    animateMarker 2 center radius p = (center - radius + 2 * radius * p, center) := by
  refine ⟨by simp [animateMarker], ?_⟩
  have h1 : (2 : ℕ) ≠ 1 := by decide
  rw [animateMarker, if_neg h1, if_pos rfl, Prod.mk.injEq]
  exact ⟨by ring, rfl⟩

/-- C5: a tempo change request always yields a BPM clamped into `[40, 200]`
(the exact value when `prev + delta` is in range, the violated bound
otherwise), and a numerator change request always yields a value clamped into
`[1, 12]` likewise; both handlers are total, so no request is rejected. -/
theorem change_requests_clamped (prev delta : ℤ) :
    40 ≤ handleBpmChange prev delta ∧ handleBpmChange prev delta ≤ 200 ∧
    handleBpmChange prev delta =
      (if prev + delta < 40 then 40 else if 200 < prev + delta then 200 else prev + delta) ∧
    1 ≤ handleNumeratorChange prev delta ∧ handleNumeratorChange prev delta ≤ 12 ∧
    handleNumeratorChange prev delta =
      (if prev + delta < 1 then 1 else if 12 < prev + delta then 12 else prev + delta) := by
  unfold handleBpmChange handleNumeratorChange
  refine ⟨?_, ?_, ?_, ?_, ?_, ?_⟩ <;> omega

/-- C6: while the session is playing, every tempo or meter change request — an
arrow-button click or a scroll-drag step — leaves the whole controls state
unchanged (so nothing is queued) and raises no error. -/
theorem running_changes_ignored (s : ControlsState) (delta steps : ℤ)
    (h : s.isPlaying = true) :
    bpmArrowClick s delta = s ∧ numeratorArrowClick s delta = s ∧
    bpmScrollStep s steps = s ∧ numeratorScrollStep s steps = s := by
  simp [bpmArrowClick, numeratorArrowClick, bpmScrollStep, numeratorScrollStep, h]

/-- Witness for C6 at a concrete playing state. -/
theorem running_changes_ignored_witness :
    (ControlsState.mk true 120 4).isPlaying = true ∧
    (bpmArrowClick ⟨true, 120, 4⟩ 1 = ⟨true, 120, 4⟩ ∧
     numeratorArrowClick ⟨true, 120, 4⟩ 1 = ⟨true, 120, 4⟩ ∧
     bpmScrollStep ⟨true, 120, 4⟩ 3 = ⟨true, 120, 4⟩ ∧
     numeratorScrollStep ⟨true, 120, 4⟩ 3 = ⟨true, 120, 4⟩) :=
  ⟨rfl, running_changes_ignored ⟨true, 120, 4⟩ 1 3 rfl⟩

/-! ## Theorems for the scheduler, session and unlock claims -/

/-- C1: once the synths exist, each tick computes
`beatIndex = beatCounter mod numerator` and `isDownbeat = (beatIndex == 0)`,
increments the counter by exactly one, schedules the accented `C2` click for
the downbeat and the ordinary `G1` click otherwise at the tick's time, and
schedules the visual write at the same time, setting the flash flag with a
clear delay of `0.8` times the beat duration (in ms, i.e. `0.8 ×
beatDurationSeconds × 1000`). -/
theorem triggerBeat_spec (ready : Bool) (numerator : ℕ) (bpmValue : ℚ)
    (beatCount : ℕ) (time : ℚ) (h : ready = true) :
    ∃ e, triggerBeat ready numerator bpmValue beatCount time = some e ∧
      e.newBeatCount = beatCount + 1 ∧
      e.visual.currentBeat = beatCount % numerator ∧
      (e.visual.isDownbeat = true ↔ beatCount % numerator = 0) ∧
      e.visual.beatActive = true ∧
      e.drawTime = time ∧
      (beatCount % numerator = 0 → e.click = ⟨true, "C2", "16n", time⟩) ∧
      (beatCount % numerator ≠ 0 → e.click = ⟨false, "G1", "16n", time⟩) ∧
      e.clearDelayMs = 0.8 * (60 / bpmValue) * 1000 := by
  subst h
  by_cases h0 : beatCount % numerator = 0 <;>
    refine ⟨_, rfl, ?_, ?_, ?_, ?_, ?_, ?_, ?_, ?_⟩ <;>
    simp [triggerBeat, h0] <;> ring

/-- Witness for C1 at numerator 4, bpm 120, beat count 5, time 2. -/
theorem triggerBeat_spec_witness :
    true = true ∧
    (∃ e, triggerBeat true 4 120 5 2 = some e ∧
      e.newBeatCount = 5 + 1 ∧
      e.visual.currentBeat = 5 % 4 ∧
      (e.visual.isDownbeat = true ↔ 5 % 4 = 0) ∧
      e.visual.beatActive = true ∧
      e.drawTime = 2 ∧
      (5 % 4 = 0 → e.click = ⟨true, "C2", "16n", 2⟩) ∧
      (5 % 4 ≠ 0 → e.click = ⟨false, "G1", "16n", 2⟩) ∧
      e.clearDelayMs = 0.8 * (60 / 120) * 1000) :=
  ⟨rfl, triggerBeat_spec true 4 120 5 2 rfl⟩

/-- C2: the stop branch halts the loop, stops the transport and resets it to
0, resets the beat counter to 0 and clears the beat state to its initial
values; consequently after any Start, any run of ticks and clock advances,
then Stop then Start, the beat counter and transport clock both read exactly
0 at the second start's loop setup. -/
theorem start_stop_start_resets (numerator : ℕ) (bpmValue : ℚ)
    (s0 : EngineState) (events : List RunEvent) :
    (∀ s : EngineState,
      (setupLoopStop s).loopActive = false ∧
      (setupLoopStop s).transportRunning = false ∧
      (setupLoopStop s).transportSeconds = 0 ∧
      (setupLoopStop s).beatCount = 0 ∧
      (setupLoopStop s).visual = ⟨0, false, false⟩) ∧
    (setupLoopStart (setupLoopStop
      (events.foldl (engineStep numerator bpmValue) (setupLoopStart s0)))).beatCount = 0 ∧
    (setupLoopStart (setupLoopStop
      (events.foldl (engineStep numerator bpmValue) (setupLoopStart s0)))).transportSeconds = 0 := by
  exact ⟨fun s => ⟨rfl, rfl, rfl, rfl, rfl⟩, rfl, rfl⟩

/-- C7: the delayed flash clear is not scoped to the tick that scheduled it.
After tick 0 and tick 1 have both run their visual writes, the flash set by
the newer tick 1 is on; when tick 0's delayed clear then fires, it switches
that flash off — an earlier tick's clear timer overwrites a newer tick's
flash-set. -/
theorem flashClear_stomps_newer_tick :
    (runFlashEvents 4 ⟨0, false, false⟩
      [FlashEvent.tickDraw 0, FlashEvent.tickDraw 1]).beatActive = true ∧
    (runFlashEvents 4 ⟨0, false, false⟩
      [FlashEvent.tickDraw 0, FlashEvent.tickDraw 1, FlashEvent.flashClear 0]).beatActive
      = false :=
  ⟨rfl, rfl⟩

/-- C3: for every numerator `n` in `[1, 12]`, `getPolygonPoints` returns
exactly `n` points; point `i` carries angle `-π/2 + 2π·i/n`, so consecutive
points are evenly spaced by `2π/n` (that is, 360/n degrees), and the first
point sits at the top of the circle: angle `-π/2`, position
`(cx, cy - r)`. -/
theorem getPolygonPoints_spec (n : ℕ) (r cx cy : ℝ) (h1 : 1 ≤ n) (h2 : n ≤ 12) :
    (getPolygonPoints n r cx cy).length = n ∧
    (∀ i : ℕ, i < n →
      ((getPolygonPoints n r cx cy).getD i ptZero).angle
        = -(Real.pi / 2) + 2 * Real.pi * i / n) ∧
    (∀ i : ℕ, i + 1 < n →
      ((getPolygonPoints n r cx cy).getD (i + 1) ptZero).angle
        - ((getPolygonPoints n r cx cy).getD i ptZero).angle = 2 * Real.pi / n) ∧
    ((getPolygonPoints n r cx cy).getD 0 ptZero).angle = -(Real.pi / 2) ∧
    ((getPolygonPoints n r cx cy).getD 0 ptZero).x = cx ∧
    ((getPolygonPoints n r cx cy).getD 0 ptZero).y = cy - r := by
  have hn : (n : ℝ) ≠ 0 := Nat.cast_ne_zero.mpr (by omega)
  have hn0 : 0 < n := by omega
  refine ⟨getPolygonPoints_length n r cx cy, ?_, ?_, ?_, ?_, ?_⟩
  · intro i hi
    rw [getPolygonPoints_getD n r cx cy i hi]
  · intro i hi
    rw [getPolygonPoints_getD n r cx cy (i + 1) hi,
      getPolygonPoints_getD n r cx cy i (by omega)]
    push_cast
    field_simp
    ring
  · rw [getPolygonPoints_getD n r cx cy 0 hn0]
    simp
  · rw [getPolygonPoints_getD n r cx cy 0 hn0]
    simp [Real.cos_pi_div_two]
  · rw [getPolygonPoints_getD n r cx cy 0 hn0]
    simp [Real.sin_pi_div_two]
    ring

/-- Witness for C3 at the square: numerator 4, unit radius, origin center. -/
theorem getPolygonPoints_spec_witness :
    ((1 : ℕ) ≤ 4 ∧ (4 : ℕ) ≤ 12) ∧
    ((getPolygonPoints 4 1 0 0).length = 4 ∧
     (∀ i : ℕ, i < 4 →
       ((getPolygonPoints 4 1 0 0).getD i ptZero).angle
         = -(Real.pi / 2) + 2 * Real.pi * i / ((4 : ℕ) : ℝ)) ∧
     (∀ i : ℕ, i + 1 < 4 →
       ((getPolygonPoints 4 1 0 0).getD (i + 1) ptZero).angle
         - ((getPolygonPoints 4 1 0 0).getD i ptZero).angle = 2 * Real.pi / ((4 : ℕ) : ℝ)) ∧
     ((getPolygonPoints 4 1 0 0).getD 0 ptZero).angle = -(Real.pi / 2) ∧
     ((getPolygonPoints 4 1 0 0).getD 0 ptZero).x = 0 ∧
     ((getPolygonPoints 4 1 0 0).getD 0 ptZero).y = 0 - 1) :=
  ⟨⟨by norm_num, by norm_num⟩, getPolygonPoints_spec 4 1 0 0 (by norm_num) (by norm_num)⟩

/-- On the edge `[k/n, (k+1)/n)` the interpolation follows the segment from
vertex `k` to vertex `(k+1) % n` with intra-edge fraction `p·n - k`. -/
theorem interpolatePosition_edge (points : List Pt) (n : ℕ) (hlen : points.length = n)
    (k : ℕ) (p : ℝ) (hk : (k : ℝ) / n ≤ p) (hp : p < ((k : ℝ) + 1) / n) (hkn : k < n) :
    interpolatePosition points p =
      ((points.getD k ptZero).x
         + ((points.getD ((k + 1) % n) ptZero).x - (points.getD k ptZero).x)
           * (p * n - k),
       (points.getD k ptZero).y
         + ((points.getD ((k + 1) % n) ptZero).y - (points.getD k ptZero).y)
           * (p * n - k)) := by
  subst hlen
  have hlen0 : ¬ points.length = 0 := by omega
  have hnR : (0 : ℝ) < (points.length : ℝ) := by
    exact_mod_cast Nat.pos_of_ne_zero hlen0
  have h1 : (k : ℝ) ≤ p * points.length := by
    rw [div_le_iff₀ hnR] at hk
    linarith
  have h2 : p * points.length < (k : ℝ) + 1 := by
    rw [lt_div_iff₀ hnR] at hp
    linarith
  have hfloor : ⌊p * (points.length : ℝ)⌋ = (k : ℤ) := by
    rw [Int.floor_eq_iff]
    exact ⟨by push_cast; linarith, by push_cast; linarith⟩
  have hmod : (k : ℤ) % (points.length : ℤ) = (k : ℤ) :=
    Int.emod_eq_of_lt (Int.ofNat_nonneg k) (by exact_mod_cast hkn)
  unfold interpolatePosition
  rw [if_neg hlen0]
  simp only [hfloor, hmod, Int.toNat_natCast, Int.cast_natCast]

/-- At progress exactly `k/n` the interpolation sits on vertex `k`. -/
theorem interpolatePosition_vertex (points : List Pt) (n : ℕ) (hlen : points.length = n)
    (k : ℕ) (hkn : k < n) :
    interpolatePosition points ((k : ℝ) / n)
      = ((points.getD k ptZero).x, (points.getD k ptZero).y) := by
  have hnR : (0 : ℝ) < (n : ℝ) := by exact_mod_cast (by omega : 0 < n)
  have ht : ((k : ℝ) / n) * n - k = 0 := by
    field_simp
  rw [interpolatePosition_edge points n hlen k ((k : ℝ) / n) le_rfl ?_ hkn, ht]
  · norm_num
  · rw [div_lt_div_iff₀ hnR hnR]
    nlinarith

/-- C8 counterexample: with both unlock steps and the resume each taking
700 ms, the call returns only after 1000 ms — more than the 600 ms outer
ceiling the claim asserts for the entire call — and the outer timeout
(`UNLOCK_TIMEOUT + 100`) is not strictly greater than the sum of the two
inner per-step timeouts. -/
theorem unlock_outer_ceiling_counterexample :
    (unlockMobileAudio ⟨700, false, 700, false, AudioCtxState.suspended, 700,
      AudioCtxState.running⟩).duration = 1000 ∧
    ¬ ((unlockMobileAudio ⟨700, false, 700, false, AudioCtxState.suspended, 700,
      AudioCtxState.running⟩).duration ≤ UNLOCK_TIMEOUT + 100) ∧
    ¬ (UNLOCK_TIMEOUT + UNLOCK_TIMEOUT < UNLOCK_TIMEOUT + 100) := by
  refine ⟨?_, ?_, ?_⟩ <;>
    norm_num [unlockMobileAudio, withTimeoutDur, withTimeoutVal, UNLOCK_TIMEOUT]

/-- C8 amended: the unlock call never hangs — its two inner unlock steps
(500 ms timeout each) run in parallel under an outer 600 ms timeout that is
strictly greater than the maximum of the inner per-step timeouts, and the
subsequent context-resume step has its own 500 ms timeout outside the outer
one, so every execution completes within 1100 ms; the call is total (every
internal failure degrades to a failed step, never a thrown error). -/
theorem unlock_bounded_never_hangs (e : UnlockEnv) :
    (unlockMobileAudio e).duration ≤ (UNLOCK_TIMEOUT + 100) + UNLOCK_TIMEOUT ∧
    max UNLOCK_TIMEOUT UNLOCK_TIMEOUT < UNLOCK_TIMEOUT + 100 := by
  constructor
  · simp only [unlockMobileAudio, withTimeoutDur]
    have hA : min (max (min e.dHtml UNLOCK_TIMEOUT) (min e.dBuf UNLOCK_TIMEOUT))
        (UNLOCK_TIMEOUT + 100) ≤ UNLOCK_TIMEOUT + 100 := min_le_right _ _
    have hB : (if e.stateAfterSteps = AudioCtxState.suspended
        then min e.dResume UNLOCK_TIMEOUT else 0) ≤ UNLOCK_TIMEOUT := by
      split
      · exact min_le_right _ _
      · norm_num [UNLOCK_TIMEOUT]
    linarith
  · norm_num [UNLOCK_TIMEOUT]

/-- C4: for a vertex list produced by `getPolygonPoints` with `n ≥ 3`
vertices: at progress 0 the interpolation equals vertex 0 exactly; on each
edge interval `[k/n, (k+1)/n)` it linearly interpolates from vertex `k` to
vertex `(k+1) % n` with intra-edge fraction `p·n - k` (the fractional part of
`p·n`, since `k = floor(p·n)` there); and at each interior edge boundary
`k/n` the value is vertex `k`, to which the interpolation also tends as the
progress approaches `k/n` from the left — no jump. -/
theorem interpolatePosition_spec (n : ℕ) (r cx cy : ℝ) (pts : List Pt)
    (hpts : pts = getPolygonPoints n r cx cy) (hn : 3 ≤ n) :
    interpolatePosition pts 0 = ((pts.getD 0 ptZero).x, (pts.getD 0 ptZero).y) ∧
    (∀ (k : ℕ) (p : ℝ), (k : ℝ) / n ≤ p → p < ((k : ℝ) + 1) / n → k < n →
      interpolatePosition pts p =
        ((pts.getD k ptZero).x
           + ((pts.getD ((k + 1) % n) ptZero).x - (pts.getD k ptZero).x) * (p * n - k),
         (pts.getD k ptZero).y
           + ((pts.getD ((k + 1) % n) ptZero).y - (pts.getD k ptZero).y) * (p * n - k))) ∧
    (∀ k : ℕ, 1 ≤ k → k < n →
      interpolatePosition pts ((k : ℝ) / n)
        = ((pts.getD k ptZero).x, (pts.getD k ptZero).y) ∧
      Filter.Tendsto (fun p => interpolatePosition pts p)
        (nhdsWithin ((k : ℝ) / n) (Set.Iio ((k : ℝ) / n)))
        (nhds (interpolatePosition pts ((k : ℝ) / n)))) := by
  have hlen : pts.length = n := by rw [hpts, getPolygonPoints_length]
  have hn0 : 0 < n := by omega
  have hnR : (0 : ℝ) < (n : ℝ) := by exact_mod_cast hn0
  refine ⟨?_, ?_, ?_⟩
  · have h := interpolatePosition_edge pts n hlen 0 0 (by simp) (by positivity) hn0
    rw [h]
    norm_num
  · intro k p h1 h2 h3
    exact interpolatePosition_edge pts n hlen k p h1 h2 h3
  · intro k hk1 hk2
    refine ⟨interpolatePosition_vertex pts n hlen k hk2, ?_⟩
    obtain ⟨j, rfl⟩ : ∃ j, k = j + 1 := ⟨k - 1, by omega⟩
    have hjn : j + 1 < n := hk2
    have hmodj : (j + 1) % n = j + 1 := Nat.mod_eq_of_lt hjn
    have hcast : ((j + 1 : ℕ) : ℝ) = (j : ℝ) + 1 := by push_cast; ring
    set A := pts.getD j ptZero with hA
    set B := pts.getD (j + 1) ptZero with hB
    set g : ℝ → ℝ × ℝ := fun q =>
      (A.x + (B.x - A.x) * (q * n - j), A.y + (B.y - A.y) * (q * n - j)) with hg
    have hEdge : ∀ q : ℝ, (j : ℝ) / n ≤ q → q < ((j : ℝ) + 1) / n →
        interpolatePosition pts q = g q := by
      intro q hq1 hq2
      have h := interpolatePosition_edge pts n hlen j q hq1 hq2 (by omega)
      rw [hmodj] at h
      exact h
    have hgcont : Continuous g := by
      rw [hg]
      fun_prop
    have hvalB : interpolatePosition pts (((j + 1 : ℕ) : ℝ) / n) = (B.x, B.y) :=
      interpolatePosition_vertex pts n hlen (j + 1) hjn
    have hgB : g (((j + 1 : ℕ) : ℝ) / n) = (B.x, B.y) := by
      have hc : (((j + 1 : ℕ) : ℝ) / n) * n = (j : ℝ) + 1 := by
        rw [hcast]
        field_simp
      simp only [hg, hc, Prod.mk.injEq]
      constructor <;> ring
    have htg : Filter.Tendsto g
        (nhdsWithin (((j + 1 : ℕ) : ℝ) / n) (Set.Iio (((j + 1 : ℕ) : ℝ) / n)))
        (nhds (B.x, B.y)) := by
      have h : Filter.Tendsto g
          (nhdsWithin (((j + 1 : ℕ) : ℝ) / n) (Set.Iio (((j + 1 : ℕ) : ℝ) / n)))
          (nhds (g (((j + 1 : ℕ) : ℝ) / n))) :=
        (hgcont.tendsto _).mono_left nhdsWithin_le_nhds
      rwa [hgB] at h
    have hIoo : Set.Ioo ((j : ℝ) / n) (((j + 1 : ℕ) : ℝ) / n)
        ∈ nhdsWithin (((j + 1 : ℕ) : ℝ) / n) (Set.Iio (((j + 1 : ℕ) : ℝ) / n)) := by
      apply Ioo_mem_nhdsWithin_Iio'
      rw [hcast, div_lt_div_iff₀ hnR hnR]
      nlinarith
    have hev : g =ᶠ[nhdsWithin (((j + 1 : ℕ) : ℝ) / n) (Set.Iio (((j + 1 : ℕ) : ℝ) / n))]
        (fun p => interpolatePosition pts p) := by
      filter_upwards [hIoo] with q hq
      exact (hEdge q (le_of_lt hq.1) (by rw [← hcast]; exact hq.2)).symm
    rw [hvalB]
    exact htg.congr' hev

/-- Witness for C4 at the triangle: numerator 3, unit radius, origin center. -/
theorem interpolatePosition_spec_witness :
    (getPolygonPoints 3 1 0 0 = getPolygonPoints 3 1 0 0 ∧ (3 : ℕ) ≤ 3) ∧
    (interpolatePosition (getPolygonPoints 3 1 0 0) 0
      = (((getPolygonPoints 3 1 0 0).getD 0 ptZero).x,
         ((getPolygonPoints 3 1 0 0).getD 0 ptZero).y) ∧
     (∀ (k : ℕ) (p : ℝ),
        (k : ℝ) / ((3 : ℕ) : ℝ) ≤ p → p < ((k : ℝ) + 1) / ((3 : ℕ) : ℝ) → k < 3 →
        interpolatePosition (getPolygonPoints 3 1 0 0) p =
          (((getPolygonPoints 3 1 0 0).getD k ptZero).x
             + (((getPolygonPoints 3 1 0 0).getD ((k + 1) % 3) ptZero).x
                 - ((getPolygonPoints 3 1 0 0).getD k ptZero).x)
               * (p * ((3 : ℕ) : ℝ) - k),
           ((getPolygonPoints 3 1 0 0).getD k ptZero).y
             + (((getPolygonPoints 3 1 0 0).getD ((k + 1) % 3) ptZero).y
                 - ((getPolygonPoints 3 1 0 0).getD k ptZero).y)
               * (p * ((3 : ℕ) : ℝ) - k))) ∧
     (∀ k : ℕ, 1 ≤ k → k < 3 →
        interpolatePosition (getPolygonPoints 3 1 0 0) ((k : ℝ) / ((3 : ℕ) : ℝ))
          = (((getPolygonPoints 3 1 0 0).getD k ptZero).x,
             ((getPolygonPoints 3 1 0 0).getD k ptZero).y) ∧
        Filter.Tendsto (fun p => interpolatePosition (getPolygonPoints 3 1 0 0) p)
          (nhdsWithin ((k : ℝ) / ((3 : ℕ) : ℝ)) (Set.Iio ((k : ℝ) / ((3 : ℕ) : ℝ))))
          (nhds (interpolatePosition (getPolygonPoints 3 1 0 0)
            ((k : ℝ) / ((3 : ℕ) : ℝ)))))) :=
  ⟨⟨rfl, by norm_num⟩,
    interpolatePosition_spec 3 1 0 0 (getPolygonPoints 3 1 0 0) rfl (by norm_num)⟩

end Metra
